import Mathlib

/-!
Verification of the ReadyOrNot rule-based readiness audit core.

Shallow embedding of the audit pipeline:
- `src/ReadyOrNot/src/agents/securityAgent.ts`   (`runSecurityAgent`)
- `src/ReadyOrNot/src/agents/complianceAgent.ts` (`runComplianceAgent`)
- `src/ReadyOrNot/src/agents/aiRiskAgent.ts`     (`runAiRiskAgent`)
- `src/unnamed/part_000`                          (`runArchitectureAgent`, `runScoringAgent`)
- `src/unnamed/part_001`                          (`runDependencyAgent`)
- `src/ReadyOrNot/src/orchestrator/agentOrchestrator.ts` (`runAudit`)

File contents are embedded as `List Char`.  External runtime primitives that
are not code of this repository (the JavaScript regular-expression engine
applied to the six regex literals of the agents, the TypeScript parser
`ts.createSourceFile`, `JSON.parse` on a dependency manifest, and the clock
`new Date().toISOString()`) are abstracted as a `JsRuntime` record of opaque
functions; every theorem quantifies over the runtime, so nothing proved
depends on a particular behaviour of those primitives.
-/

/-- A finding.  Mirrors the `Vulnerability` record built by every agent:
`{id, title, severity, file, line, description, recommendation, agentSource}`.
Severity values are the string literals of the source: `"ERROR"`,
`"WARNING"`, `"INFO"`. -/
structure Vulnerability where
  id : String
  title : String
  severity : String
  file : String
  line : Nat
  description : String
  recommendation : String
  agentSource : String
deriving DecidableEq, Repr

/-- An input file: `{fsPath, content}` of the source's `WorkspaceFile`. -/
structure WorkspaceFile where
  fsPath : String
  content : List Char
deriving DecidableEq, Repr

/-- `scoreDetails` of the `FinalAuditReport` built by `runScoringAgent`. -/
structure ScoreDetails where
  totalVulnerabilities : Nat
  errorCount : Nat
  warningCount : Nat
  infoCount : Nat
  finalScore : Int
  decision : String
deriving DecidableEq, Repr

/-- The `FinalAuditReport` returned by `runScoringAgent` / `runAudit`. -/
structure FinalAuditReport where
  vulnerabilities : List Vulnerability
  scoreDetails : ScoreDetails
  timestamp : String
deriving DecidableEq, Repr

/-- The orchestrator's dedup key `(ruleId, filePath, lineNumber)` : in the
code, `t.id === finding.id && t.file === finding.file && t.line === finding.line`. -/
def keyOf (v : Vulnerability) : String × String × Nat :=
  (v.id, v.file, v.line)

/-- Lower-cases a string character by character; used to model the `i` flag
of the path-extension regexes. -/
def lowerChars (s : String) : List Char :=
  s.toList.map Char.toLower

/-- `path.match(/\.(e₁|e₂|...)$/i)` for a list of literal extensions: the
path, case-folded, ends with one of the extensions. -/
def hasAnyExtCI (exts : List String) (path : String) : Bool :=
  exts.any (fun e => List.isSuffixOf (lowerChars e) (lowerChars path))

/-- JavaScript `path.endsWith(suffix)` (case-sensitive). -/
def endsWithLit (suffix : String) (path : String) : Bool :=
  List.isSuffixOf suffix.toList path.toList

/-- JavaScript `content.split('\n')` on an embedded file content.  Splitting
the empty string gives `[""]`; `k` newlines give `k + 1` pieces. -/
def splitNl : List Char → List (List Char)
  | [] => [[]]
  | c :: cs =>
    if c = '\n' then [] :: splitNl cs
    else
      match splitNl cs with
      | [] => [[c]]
      | l :: ls => (c :: l) :: ls

/-- The offset-to-line conversion every textual pass of the agents performs
per match: `content.substring(0, idx).split('\n').length`
(securityAgent.ts lines 71-72 and 88-89, complianceAgent.ts lines 22 and 38,
aiRiskAgent.ts line 21, architectureAgent line 33). -/
def numLinesUpTo (content : List Char) (idx : Nat) : Nat :=
  (splitNl (content.take idx)).length

/-- Specification apparatus (not source code): the character offset of the
first character of 1-based line `n` of `content`.  Line 1 starts at offset 0;
line `n + 1` starts one past the `n`-th newline. -/
def lineStartOffset : List Char → Nat → Nat
  | _, 0 => 0
  | _, 1 => 0
  | [], _ + 2 => 0
  | c :: cs, n + 2 =>
    if c = '\n' then 1 + lineStartOffset cs (n + 1)
    else 1 + lineStartOffset cs (n + 2)

theorem splitNl_ne_nil (l : List Char) : splitNl l ≠ [] := by
  cases l with
  | nil => simp [splitNl]
  | cons c cs =>
    simp only [splitNl]
    split
    · simp
    · split <;> simp

theorem length_splitNl (l : List Char) :
    (splitNl l).length = l.count '\n' + 1 := by
  induction l with
  | nil => simp [splitNl]
  | cons c cs ih =>
    by_cases hc : c = '\n'
    · subst hc
      simp [splitNl, List.count_cons, ih]
    · have hne := splitNl_ne_nil cs
      simp only [splitNl, if_neg hc]
      cases h : splitNl cs with
      | nil => exact absurd h hne
      | cons l ls =>
        have : (splitNl cs).length = cs.count '\n' + 1 := ih
        rw [h] at this
        simp only [List.length_cons] at this ⊢
        rw [List.count_cons]
        simp [hc, this]

theorem count_take_lineStartOffset :
    ∀ (l : List Char) (n : Nat), 1 ≤ n → n ≤ l.count '\n' + 1 →
      (l.take (lineStartOffset l n)).count '\n' = n - 1 := by
  intro l
  induction l with
  | nil =>
    intro n h1 h2
    simp only [List.count_nil] at h2
    interval_cases n
    simp [lineStartOffset]
  | cons c cs ih =>
    intro n h1 h2
    match n, h1 with
    | 1, _ => simp [lineStartOffset]
    | (m + 2), _ =>
      by_cases hc : c = '\n'
      · subst hc
        have hk : lineStartOffset ('\n' :: cs) (m + 2) = lineStartOffset cs (m + 1) + 1 := by
          simp [lineStartOffset, Nat.add_comm]
        rw [hk, List.take_succ_cons, List.count_cons]
        have h2' : m + 1 ≤ cs.count '\n' + 1 := by
          rw [List.count_cons] at h2
          simp at h2
          omega
        have := ih (m + 1) (by omega) h2'
        simp [this]
      · have hk : lineStartOffset (c :: cs) (m + 2) = lineStartOffset cs (m + 2) + 1 := by
          simp [lineStartOffset, hc, Nat.add_comm]
        rw [hk, List.take_succ_cons, List.count_cons]
        have h2' : m + 2 ≤ cs.count '\n' + 1 := by
          rw [List.count_cons] at h2
          simp [hc] at h2
          omega
        have := ih (m + 2) (by omega) h2'
        simp [hc, this]

/-- One match of a JavaScript global regex over a file content:
`match.index`, `match[0]` and the first capture group `match[1]`. -/
structure JsMatch where
  index : Nat
  whole : String
  cap : String
deriving DecidableEq, Repr

/-- The shape of a TypeScript AST node as far as the security agent's
predicates inspect it: `ts.isCallExpression(node) && ts.isIdentifier(node.expression)`
with the identifier's text, or `ts.isJsxAttribute(node)` with the attribute's
name, or any other node. -/
inductive TsNodeKind where
  | callWithIdentCallee : String → TsNodeKind
  | callOther : TsNodeKind
  | jsxAttribute : String → TsNodeKind
  | otherNode : TsNodeKind
deriving DecidableEq, Repr

/-- A TypeScript AST node: its kind, the 0-based line of its start position
(`sourceFile.getLineAndCharacterOfPosition(node.getStart()).line`), and its
children in source order (`ts.forEachChild`). -/
inductive TsNode where
  | mk : TsNodeKind → Nat → List TsNode → TsNode

/-- External JavaScript/TypeScript runtime primitives used by the agents but
not defined in this repository.  Each regex field is the JS regex engine's
list of non-overlapping global matches of one regex literal of the source
over a file content; `tsParse` is `ts.createSourceFile` (`none` models a
parse failure, i.e. the `catch` branch); `jsonDeps` is `JSON.parse` of a
package manifest followed by `Object.keys({...dependencies, ...devDependencies})`
(`none` models the `catch` branch); `nowISO` is `new Date().toISOString()`. -/
structure JsRuntime where
  /-- securityAgent.ts line 11: the hardcoded-secret regex. -/
  secretExec : List Char → List JsMatch
  /-- securityAgent.ts line 12: the debug-exposure regex. -/
  debugExec : List Char → List JsMatch
  /-- complianceAgent.ts line 11: the PII-logging regex. -/
  piiExec : List Char → List JsMatch
  /-- complianceAgent.ts line 12: the basic-logging regex. -/
  logExec : List Char → List JsMatch
  /-- aiRiskAgent.ts line 12: the prompt-injection regex. -/
  promptExec : List Char → List JsMatch
  /-- part_000 line 10: the server-DB-import regex of the architecture agent. -/
  dbExec : List Char → List JsMatch
  tsParse : List Char → Option TsNode
  jsonDeps : List Char → Option (List String)
  nowISO : String

/-- securityAgent.ts lines 30-39: the finding pushed for an `eval()` call
found in the AST (`line` is the 0-based AST line, reported as `line + 1`). -/
def mkEvalFinding (path : String) (line0 : Nat) : Vulnerability :=
  { id := "eval-usage"
    title := "Unsafe eval() Execution"
    severity := "ERROR"
    file := path
    line := line0 + 1
    description := "Usage of eval() detected, which makes your application susceptible to remote code execution (RCE)."
    recommendation := "Replace eval() with safe parsers like JSON.parse() or dedicated string formatters."
    agentSource := "SecurityAgent" }

/-- securityAgent.ts lines 46-55: the finding pushed for a
`dangerouslySetInnerHTML` JSX attribute found in the AST. -/
def mkDangerFinding (path : String) (line0 : Nat) : Vulnerability :=
  { id := "dangerously-set-inner-html"
    title := "XSS Vector: dangerouslySetInnerHTML"
    severity := "ERROR"
    file := path
    line := line0 + 1
    description := "Found dangerouslySetInnerHTML property natively rendering unfiltered raw HTML to the DOM."
    recommendation := "Refactor to standard React properties or securely sanitize input using DOMPurify before setting dangerously."
    agentSource := "SecurityAgent" }

mutual

/-- securityAgent.ts lines 26-59, the `visit` closure: check the node for the
two structural predicates, then recurse over the children
(`ts.forEachChild(node, visit)`), accumulating findings in preorder. -/
def visitNode (path : String) : TsNode → List Vulnerability
  | .mk k line0 children =>
    (match k with
     | .callWithIdentCallee name =>
       if name = "eval" then [mkEvalFinding path line0] else []
     | _ => []) ++
    (match k with
     | .jsxAttribute name =>
       if name = "dangerouslySetInnerHTML" then [mkDangerFinding path line0] else []
     | _ => []) ++
    visitForest path children

def visitForest (path : String) : List TsNode → List Vulnerability
  | [] => []
  | c :: cs => visitNode path c ++ visitForest path cs

end

mutual

/-- The number of call expressions whose callee is the identifier `eval` in
a TypeScript AST (specification apparatus for stating C4). -/
def countEvalNode : TsNode → Nat
  | .mk k _ children =>
    (match k with
     | .callWithIdentCallee name => if name = "eval" then 1 else 0
     | _ => 0) + countEvalForest children

def countEvalForest : List TsNode → Nat
  | [] => 0
  | c :: cs => countEvalNode c + countEvalForest cs

end

/-- securityAgent.ts lines 15-64: the structural (AST) pass of the security
agent over one file.  Runs only when the path matches `/\.(ts|js|jsx|tsx)$/i`
and `ts.createSourceFile` succeeds; a parse failure is caught silently and
yields no structural finding. -/
def securityAstFindings (R : JsRuntime) (f : WorkspaceFile) : List Vulnerability :=
  if hasAnyExtCI [".ts", ".js", ".jsx", ".tsx"] f.fsPath then
    match R.tsParse f.content with
    | some ast => visitNode f.fsPath ast
    | none => []
  else []

/-- securityAgent.ts lines 68-83: the textual secret pass (`secretRegex`),
one `env-isolation` finding per match, line from
`content.substring(0, match.index).split('\n').length`. -/
def securitySecretFindings (R : JsRuntime) (f : WorkspaceFile) : List Vulnerability :=
  (R.secretExec f.content).map fun m =>
    { id := "env-isolation"
      title := "Hardcoded Secret Key"
      severity := "ERROR"
      file := f.fsPath
      line := numLinesUpTo f.content m.index
      description := "Potential production key, API token, or secret hardcoded directly into source file."
      recommendation := "Move credentials into .env.local ignored files and access them dynamically via process.env."
      agentSource := "SecurityAgent" }

/-- securityAgent.ts lines 85-100: the textual debug-exposure pass
(`debugRegex`), one `debug-exposure` finding per match. -/
def securityDebugFindings (R : JsRuntime) (f : WorkspaceFile) : List Vulnerability :=
  (R.debugExec f.content).map fun m =>
    { id := "debug-exposure"
      title := "Data Leak (Debug Mode)"
      severity := "WARNING"
      file := f.fsPath
      line := numLinesUpTo f.content m.index
      description := "Identified explicitly exposed debug endpoints or unsafe logging of sensitive tokens."
      recommendation := "Wipe all development debug toggles and internal test routes before pushing to production branches."
      agentSource := "SecurityAgent" }

/-- The security agent's findings for one file, in push order: the AST pass,
then the secret pass, then the debug pass. -/
def securityForFile (R : JsRuntime) (f : WorkspaceFile) : List Vulnerability :=
  securityAstFindings R f ++ securitySecretFindings R f ++ securityDebugFindings R f

/-- securityAgent.ts `runSecurityAgent`: one findings array accumulated over
all files in order. -/
def runSecurityAgent (R : JsRuntime) (files : List WorkspaceFile) : List Vulnerability :=
  files.flatMap (securityForFile R)

/-- part_001 lines 35-44: the single finding pushed by the `catch` branch of
the dependency agent when a `package.json` cannot be parsed and processed. -/
def mkMalformedManifestFinding (path : String) : Vulnerability :=
  { id := "malformed-package-json"
    title := "Malformed Dependency Manifest"
    severity := "INFO"
    file := path
    line := 1
    description := "The package.json file could not be parsed as valid JSON."
    recommendation := "Fix JSON formatting to allow NPM and scanners to install dependencies properly."
    agentSource := "DependencyAgent" }

/-- part_001 line 9: the blacklist of the dependency agent. -/
def blacklistedDeps : List String := ["request", "left-pad", "crypto-js"]

/-- part_001 lines 12-46: the dependency agent on one file: skip unless the
path ends with `package.json`; on parse success, one `blacklisted-dependency`
finding per blacklisted dependency key; the `catch` branch yields exactly the
malformed-manifest finding. -/
def dependencyForFile (R : JsRuntime) (f : WorkspaceFile) : List Vulnerability :=
  if endsWithLit "package.json" f.fsPath then
    match R.jsonDeps f.content with
    | some deps =>
      (deps.filter (fun dep => blacklistedDeps.contains dep)).map fun dep =>
        { id := "blacklisted-dependency"
          title := "Deprecated / Unsafe Dependency"
          severity := "WARNING"
          file := f.fsPath
          line := 1
          description := "The package '" ++ dep ++ "' is blacklisted due to known vulnerabilities, deprecation, or poor maintenance."
          recommendation := "Remove '" ++ dep ++ "' and migrate to natively secure alternatives (e.g., Node's native 'fetch' or 'axios')."
          agentSource := "DependencyAgent" }
    | none => [mkMalformedManifestFinding f.fsPath]
  else []

/-- part_001 `runDependencyAgent`. -/
def runDependencyAgent (R : JsRuntime) (files : List WorkspaceFile) : List Vulnerability :=
  files.flatMap (dependencyForFile R)

/-- complianceAgent.ts lines 14-50: the compliance agent on one file: skip
unless the path matches `/\.(ts|js|jsx|tsx|py)$/i`; then one `pii-leakage`
finding per `piiRegex` match followed by one `observability-failure` finding
per `basicLoggingRule` match. -/
def complianceForFile (R : JsRuntime) (f : WorkspaceFile) : List Vulnerability :=
  if hasAnyExtCI [".ts", ".js", ".jsx", ".tsx", ".py"] f.fsPath then
    ((R.piiExec f.content).map fun m =>
      { id := "pii-leakage"
        title := "Compliance: PII Data Logging"
        severity := "ERROR"
        file := f.fsPath
        line := numLinesUpTo f.content m.index
        description := "Logging explicit Personally Identifiable Information (PII) directly to console output violates GDPR and SOC2 compliance."
        recommendation := "Mask all sensitive data elements (e.g. hash passports and strings) prior to logging out."
        agentSource := "ComplianceAgent" }) ++
    ((R.logExec f.content).map fun m =>
      { id := "observability-failure"
        title := "Operational Visibility Risk"
        severity := "INFO"
        file := f.fsPath
        line := numLinesUpTo f.content m.index
        description := "Raw usage of " ++ m.whole ++ "... is not reliable for scalable tracing in production."
        recommendation := "Recommend using a dedicated monitoring/logging framework (e.g., Winston, Sentry, Datadog) instead of native STDOUT buffers."
        agentSource := "ComplianceAgent" })
  else []

/-- complianceAgent.ts `runComplianceAgent`. -/
def runComplianceAgent (R : JsRuntime) (files : List WorkspaceFile) : List Vulnerability :=
  files.flatMap (complianceForFile R)

/-- aiRiskAgent.ts lines 14-33: the AI-risk agent on one file: skip unless
the path matches `/\.(ts|js|py)$/i`; one `ai-prompt-injection` finding per
`promptInjectionRegex` match. -/
def aiRiskForFile (R : JsRuntime) (f : WorkspaceFile) : List Vulnerability :=
  if hasAnyExtCI [".ts", ".js", ".py"] f.fsPath then
    (R.promptExec f.content).map fun m =>
      { id := "ai-prompt-injection"
        title := "AI Code Risk: Prompt Injection Vulnerability"
        severity := "WARNING"
        file := f.fsPath
        line := numLinesUpTo f.content m.index
        description := "Detected raw user input being directly appended or interpolated into an LLM prompt."
        recommendation := "Sanitize input thoroughly. Provide strict system boundaries or utilize explicit function calling rather than relying on unstructured text parsing from clients."
        agentSource := "AiRiskAgent" }
  else []

/-- aiRiskAgent.ts `runAiRiskAgent`. -/
def runAiRiskAgent (R : JsRuntime) (files : List WorkspaceFile) : List Vulnerability :=
  files.flatMap (aiRiskForFile R)

/-- part_000 lines 12-46: the architecture agent on one file: a
`architecture-fragility` warning when `file.content.split('\n')` has more
than 1000 lines, then, for `.tsx`/`.jsx` files, one
`architecture-fragility-db` error per `serverDbImports` match. -/
def architectureForFile (R : JsRuntime) (f : WorkspaceFile) : List Vulnerability :=
  (if (splitNl f.content).length > 1000 then
    [{ id := "architecture-fragility"
       title := "Architecture Fragility: God Object"
       severity := "WARNING"
       file := f.fsPath
       line := 1
       description := "Massive monolithic file detected (>1000 lines)."
       recommendation := "Break this module down into smaller, composable elements for testing and maintainability."
       agentSource := "ArchitectureAgent" }]
  else []) ++
  (if hasAnyExtCI [".tsx", ".jsx"] f.fsPath then
    (R.dbExec f.content).map fun m =>
      { id := "architecture-fragility-db"
        title := "Severe Anti-Pattern: Frontend DB Access"
        severity := "ERROR"
        file := f.fsPath
        line := numLinesUpTo f.content m.index
        description := "Client UI file directly imports server-side DB client '" ++ m.cap ++ "'."
        recommendation := "Refactor this logic into a dedicated backend API route or Server Component/Action layer."
        agentSource := "ArchitectureAgent" }
  else [])

/-- part_000 `runArchitectureAgent`. -/
def runArchitectureAgent (R : JsRuntime) (files : List WorkspaceFile) : List Vulnerability :=
  files.flatMap (architectureForFile R)

/-- part_000 lines 62-66, first branch: `if (v.severity === 'ERROR') errorCount++`. -/
def errorCountOf (vs : List Vulnerability) : Nat :=
  vs.countP fun v => decide (v.severity = "ERROR")

/-- part_000 lines 62-66, second branch: `else if (v.severity === 'WARNING')
warningCount++` (a severity can never equal both string literals, so the
count of the guarded branch is the count of the plain equality). -/
def warningCountOf (vs : List Vulnerability) : Nat :=
  vs.countP fun v => decide (v.severity = "WARNING")

/-- part_000 lines 62-66, `else infoCount++`: everything that is neither
`"ERROR"` nor `"WARNING"`. -/
def infoCountOf (vs : List Vulnerability) : Nat :=
  vs.countP fun v => decide (¬v.severity = "ERROR" ∧ ¬v.severity = "WARNING")

/-- part_000 lines 57-94, `runScoringAgent`: per-severity counts, then
`score = 100 - 25*errorCount - 10*warningCount - 2*infoCount` floored at 0
by `Math.max(0, score)`, then
`decision = (errorCount > 0 || score < 50) ? 'NO-GO' : 'GO'`.
`now` stands for the impure `new Date().toISOString()`. -/
def runScoringAgent (now : String) (vulnerabilities : List Vulnerability) : FinalAuditReport :=
  let errorCount := errorCountOf vulnerabilities
  let warningCount := warningCountOf vulnerabilities
  let infoCount := infoCountOf vulnerabilities
  let score : Int := 100 - 25 * errorCount - 10 * warningCount - 2 * infoCount
  let score : Int := max 0 score
  let decision : String := if errorCount > 0 ∨ score < 50 then "NO-GO" else "GO"
  { vulnerabilities := vulnerabilities
    scoreDetails :=
      { totalVulnerabilities := vulnerabilities.length
        errorCount := errorCount
        warningCount := warningCount
        infoCount := infoCount
        finalScore := score
        decision := decision }
    timestamp := now }

/-- agentOrchestrator.ts lines 44-48, inner call: JavaScript
`self.findIndex(t => t.id === finding.id && t.file === finding.file &&
t.line === finding.line)` as an `Int` (`-1` when absent). -/
def jsFindIndexKey (self : List Vulnerability) (finding : Vulnerability) : Int :=
  match self.findIdx? (fun t => decide (keyOf t = keyOf finding)) with
  | some i => (i : Int)
  | none => -1

/-- agentOrchestrator.ts lines 44-48:
`allFindings.filter((finding, index, self) => index === self.findIndex(...))`,
walking the list with its index. -/
def dedupGo (self : List Vulnerability) : Nat → List Vulnerability → List Vulnerability
  | _, [] => []
  | index, finding :: rest =>
    if jsFindIndexKey self finding = (index : Int) then
      finding :: dedupGo self (index + 1) rest
    else
      dedupGo self (index + 1) rest

/-- The orchestrator's dedup: keep a finding exactly when its index is the
first index carrying its `(id, file, line)` key. -/
def dedupByKey (l : List Vulnerability) : List Vulnerability :=
  dedupGo l 0 l

/-- agentOrchestrator.ts lines 20-41: the concatenation of the five agents'
findings in the push order security, dependency, compliance, aiRisk,
architecture. -/
def allFindings (R : JsRuntime) (files : List WorkspaceFile) : List Vulnerability :=
  runSecurityAgent R files ++ runDependencyAgent R files ++
    runComplianceAgent R files ++ runAiRiskAgent R files ++
    runArchitectureAgent R files

/-- agentOrchestrator.ts lines 15-52, `runAudit`: run every agent, aggregate,
deduplicate on `(id, file, line)` keeping first occurrences, and score. -/
def runAudit (R : JsRuntime) (files : List WorkspaceFile) : FinalAuditReport :=
  runScoringAgent R.nowISO (dedupByKey (allFindings R files))

theorem findIdx?_start_iff {α : Type} (p : α → Bool) :
    ∀ (l : List α) (s i : Nat),
      l.findIdx? p s = some i ↔
        ∃ j, i = s + j ∧ (∃ g, l[j]? = some g ∧ p g = true) ∧
          (l.take j).any p = false := by
  intro l
  induction l with
  | nil =>
    intro s i
    simp [List.findIdx?_nil]
  | cons x xs ih =>
    intro s i
    rw [List.findIdx?_cons]
    by_cases hpx : p x = true
    · rw [if_pos hpx]
      constructor
      · intro h
        obtain rfl : i = s := by simpa using h.symm
        exact ⟨0, by simp, ⟨x, by simp, hpx⟩, by simp⟩
      · rintro ⟨j, rfl, ⟨g, hg, hpg⟩, htake⟩
        cases j with
        | zero => simp
        | succ j' =>
          rw [List.take_succ_cons, List.any_cons, hpx] at htake
          simp at htake
    · rw [if_neg hpx]
      rw [ih (s + 1) i]
      constructor
      · rintro ⟨j', rfl, ⟨g, hg, hpg⟩, htake⟩
        refine ⟨j' + 1, by omega, ⟨g, by simpa using hg, hpg⟩, ?_⟩
        rw [List.take_succ_cons, List.any_cons]
        simp only [htake]
        simp [hpx]
      · rintro ⟨j, rfl, ⟨g, hg, hpg⟩, htake⟩
        cases j with
        | zero =>
          rw [List.getElem?_cons_zero] at hg
          obtain rfl : g = x := by simpa using hg.symm
          exact absurd hpg hpx
        | succ j' =>
          rw [List.take_succ_cons, List.any_cons] at htake
          simp only [Bool.or_eq_false_iff] at htake
          exact ⟨j', by omega, ⟨g, by simpa using hg, hpg⟩, htake.2⟩

theorem findIdx?_zero_iff {α : Type} (p : α → Bool) (l : List α) (i : Nat) :
    l.findIdx? p = some i ↔
      (∃ g, l[i]? = some g ∧ p g = true) ∧ (l.take i).any p = false := by
  rw [findIdx?_start_iff p l 0 i]
  constructor
  · rintro ⟨j, rfl, h⟩
    simpa using h
  · intro h
    exact ⟨i, by omega, h⟩

theorem find?_eq_some_of_take {α : Type} (p : α → Bool) :
    ∀ (l : List α) (i : Nat) (g : α), l[i]? = some g → p g = true →
      (l.take i).any p = false → l.find? p = some g := by
  intro l
  induction l with
  | nil => intro i g hg; simp at hg
  | cons x xs ih =>
    intro i g hg hpg htake
    cases i with
    | zero =>
      rw [List.getElem?_cons_zero] at hg
      obtain rfl : x = g := by simpa using hg
      exact List.find?_cons_of_pos _ hpg
    | succ i' =>
      rw [List.take_succ_cons, List.any_cons, Bool.or_eq_false_iff] at htake
      rw [List.getElem?_cons_succ] at hg
      rw [List.find?_cons_of_neg _ (by simp [htake.1])]
      exact ih i' g hg hpg htake.2

theorem jsFindIndexKey_eq_iff (self : List Vulnerability) (finding : Vulnerability)
    (index : Nat) :
    jsFindIndexKey self finding = (index : Int) ↔
      self.findIdx? (fun t => decide (keyOf t = keyOf finding)) = some index := by
  unfold jsFindIndexKey
  cases h : self.findIdx? (fun t => decide (keyOf t = keyOf finding)) with
  | none => simp
  | some i => simp

theorem dedupGo_sublist (self : List Vulnerability) :
    ∀ (rest : List Vulnerability) (index : Nat), List.Sublist (dedupGo self index rest) rest := by
  intro rest
  induction rest with
  | nil => intro index; simp [dedupGo]
  | cons finding rest' ih =>
    intro index
    simp only [dedupGo]
    split
    · exact (ih (index + 1)).cons₂ finding
    · exact (ih (index + 1)).cons finding

theorem dedupByKey_sublist (l : List Vulnerability) : List.Sublist (dedupByKey l) l :=
  dedupGo_sublist l l 0

theorem getElem?_of_drop_cons {α : Type} {self rest : List α} {index : Nat} {g : α}
    (h : self.drop index = g :: rest) : self[index]? = some g := by
  have h0 := List.getElem?_drop self index 0
  rw [h] at h0
  simpa using h0.symm

theorem drop_succ_of_drop_cons {α : Type} {self rest : List α} {index : Nat} {g : α}
    (h : self.drop index = g :: rest) : self.drop (index + 1) = rest := by
  have h0 := List.drop_drop 1 index self
  rw [h] at h0
  simpa using h0.symm

theorem take_succ_of_drop_cons {α : Type} {self rest : List α} {index : Nat} {g : α}
    (h : self.drop index = g :: rest) : self.take (index + 1) = self.take index ++ [g] := by
  rw [List.take_succ, getElem?_of_drop_cons h, Option.toList_some]

theorem dedupGo_countKey (self : List Vulnerability) (k : String × String × Nat) :
    ∀ (rest : List Vulnerability) (index : Nat), self.drop index = rest →
      (dedupGo self index rest).countP (fun v => decide (keyOf v = k)) =
        if rest.any (fun v => decide (keyOf v = k)) = true ∧
            (self.take index).any (fun v => decide (keyOf v = k)) = false
        then 1 else 0 := by
  intro rest
  induction rest with
  | nil =>
    intro index _
    simp [dedupGo]
  | cons finding rest' ih =>
    intro index hdrop
    have hget : self[index]? = some finding := getElem?_of_drop_cons hdrop
    have htake : self.take (index + 1) = self.take index ++ [finding] :=
      take_succ_of_drop_cons hdrop
    have hIH := ih (index + 1) (drop_succ_of_drop_cons hdrop)
    simp only [dedupGo]
    split
    case isTrue hcond =>
      rw [jsFindIndexKey_eq_iff, findIdx?_zero_iff] at hcond
      have hno : (self.take index).any (fun t => decide (keyOf t = keyOf finding)) = false :=
        hcond.2
      by_cases hk : keyOf finding = k
      · have hB : (self.take index).any (fun v => decide (keyOf v = k)) = false := by
          rw [← hk]; exact hno
        have hTake1 : (self.take (index + 1)).any (fun v => decide (keyOf v = k)) = true := by
          rw [htake]; simp [hk]
        rw [hTake1] at hIH
        simp only [Bool.true_eq_false, and_false, if_false] at hIH
        rw [List.countP_cons, hIH]
        simp [hk, hB]
      · have hTake1 : (self.take (index + 1)).any (fun v => decide (keyOf v = k)) =
            (self.take index).any (fun v => decide (keyOf v = k)) := by
          rw [htake]; simp [List.any_append, hk]
        rw [List.countP_cons, hIH, hTake1]
        simp [hk]
    case isFalse hcond =>
      rw [jsFindIndexKey_eq_iff, findIdx?_zero_iff] at hcond
      have hex : ∃ g, self[index]? = some g ∧
          (fun t => decide (keyOf t = keyOf finding)) g = true := ⟨finding, hget, by simp⟩
      have hyes : (self.take index).any (fun t => decide (keyOf t = keyOf finding)) = true := by
        by_contra hfalse
        exact hcond ⟨hex, by simpa using hfalse⟩
      by_cases hk : keyOf finding = k
      · have hB : (self.take index).any (fun v => decide (keyOf v = k)) = true := by
          rw [← hk]; exact hyes
        have hTake1 : (self.take (index + 1)).any (fun v => decide (keyOf v = k)) = true := by
          rw [htake]; simp [List.any_append, hB]
        rw [hIH, hTake1]
        simp [hB]
      · have hTake1 : (self.take (index + 1)).any (fun v => decide (keyOf v = k)) =
            (self.take index).any (fun v => decide (keyOf v = k)) := by
          rw [htake]; simp [List.any_append, hk]
        rw [hIH, hTake1]
        simp [hk]

theorem dedupByKey_countKey (l : List Vulnerability) (k : String × String × Nat) :
    (dedupByKey l).countP (fun v => decide (keyOf v = k)) =
      if l.any (fun v => decide (keyOf v = k)) = true then 1 else 0 := by
  have := dedupGo_countKey l k l 0 rfl
  simpa using this

theorem dedupGo_mem_first (self : List Vulnerability) :
    ∀ (rest : List Vulnerability) (index : Nat), self.drop index = rest →
      ∀ v ∈ dedupGo self index rest,
        ∃ j, self.findIdx? (fun t => decide (keyOf t = keyOf v)) = some j ∧
          self[j]? = some v := by
  intro rest
  induction rest with
  | nil => intro index _ v hv; simp [dedupGo] at hv
  | cons finding rest' ih =>
    intro index hdrop v hv
    have hget : self[index]? = some finding := getElem?_of_drop_cons hdrop
    have hdrop' : self.drop (index + 1) = rest' := drop_succ_of_drop_cons hdrop
    simp only [dedupGo] at hv
    by_cases hcond : jsFindIndexKey self finding = (index : Int)
    · rw [if_pos hcond] at hv
      rcases List.mem_cons.mp hv with rfl | hv'
      · exact ⟨index, (jsFindIndexKey_eq_iff self v index).mp hcond, hget⟩
      · exact ih (index + 1) hdrop' v hv'
    · rw [if_neg hcond] at hv
      exact ih (index + 1) hdrop' v hv

theorem dedupByKey_mem_find? (l : List Vulnerability) (v : Vulnerability)
    (hv : v ∈ dedupByKey l) :
    l.find? (fun t => decide (keyOf t = keyOf v)) = some v := by
  obtain ⟨j, hfind, hget⟩ := dedupGo_mem_first l l 0 rfl v hv
  rw [findIdx?_zero_iff] at hfind
  obtain ⟨⟨g, hg, -⟩, htake⟩ := hfind
  exact find?_eq_some_of_take _ l j v hget (by simp) htake

theorem keyOf_eq_iff (a b : Vulnerability) :
    keyOf a = keyOf b ↔ a.id = b.id ∧ a.file = b.file ∧ a.line = b.line := by
  unfold keyOf
  simp [Prod.ext_iff]

theorem dedupByKey_countP_of_keyDet (l : List Vulnerability) (p : Vulnerability → Bool)
    (hdet : ∀ a b, keyOf a = keyOf b → p a = p b)
    (h1 : l.countP p = 1) : (dedupByKey l).countP p = 1 := by
  have hle : (dedupByKey l).countP p ≤ 1 := by
    calc (dedupByKey l).countP p ≤ l.countP p :=
          (dedupByKey_sublist l).countP_le p
      _ = 1 := h1
  have hpos : 0 < (dedupByKey l).countP p := by
    have : 0 < l.countP p := by omega
    obtain ⟨v, hvmem, hpv⟩ := List.countP_pos_iff.mp this
    have hany : l.any (fun t => decide (keyOf t = keyOf v)) = true :=
      List.any_eq_true.mpr ⟨v, hvmem, by simp⟩
    have hcnt := dedupByKey_countKey l (keyOf v)
    rw [hany, if_pos rfl] at hcnt
    have : 0 < (dedupByKey l).countP (fun t => decide (keyOf t = keyOf v)) := by omega
    obtain ⟨w, hwmem, hpw⟩ := List.countP_pos_iff.mp this
    have hkey : keyOf w = keyOf v := of_decide_eq_true hpw
    refine List.countP_pos_iff.mpr ⟨w, hwmem, ?_⟩
    rw [hdet w v hkey]
    exact hpv
  omega

theorem members_eq_of_countP_eq_one {α : Type} (q : α → Bool) :
    ∀ (l : List α), l.countP q = 1 →
      ∀ a ∈ l, q a = true → ∀ b ∈ l, q b = true → a = b := by
  intro l
  induction l with
  | nil => intro h a ha; simp at ha
  | cons x t ih =>
    intro h a ha hqa b hb hqb
    rw [List.countP_cons] at h
    by_cases hqx : q x = true
    · rw [if_pos hqx] at h
      have ht : t.countP q = 0 := by omega
      have hnone : ∀ c ∈ t, ¬q c = true := List.countP_eq_zero.mp ht
      have ha' : a = x := by
        rcases List.mem_cons.mp ha with rfl | ha'
        · rfl
        · exact absurd hqa (hnone a ha')
      have hb' : b = x := by
        rcases List.mem_cons.mp hb with rfl | hb'
        · rfl
        · exact absurd hqb (hnone b hb')
      rw [ha', hb']
    · rw [if_neg hqx] at h
      simp only [Nat.add_zero] at h
      have ha' : a ∈ t := by
        rcases List.mem_cons.mp ha with rfl | ha'
        · exact absurd hqa hqx
        · exact ha'
      have hb' : b ∈ t := by
        rcases List.mem_cons.mp hb with rfl | hb'
        · exact absurd hqb hqx
        · exact hb'
      exact ih h a ha' hqa b hb' hqb

mutual

theorem visitNode_shape (path : String) :
    ∀ (t : TsNode) (v : Vulnerability), v ∈ visitNode path t →
      (∃ n, v = mkEvalFinding path n) ∨ ∃ n, v = mkDangerFinding path n
  | .mk k line0 children, v => by
    intro hv
    cases k with
    | callWithIdentCallee name =>
      simp only [visitNode, List.mem_append] at hv
      rcases hv with (h1 | h2) | h3
      · by_cases hn : name = "eval"
        · rw [if_pos hn, List.mem_singleton] at h1
          exact Or.inl ⟨line0, h1⟩
        · rw [if_neg hn] at h1
          simp at h1
      · simp at h2
      · exact visitForest_shape path children v h3
    | callOther =>
      simp only [visitNode, List.mem_append] at hv
      rcases hv with (h1 | h2) | h3
      · simp at h1
      · simp at h2
      · exact visitForest_shape path children v h3
    | jsxAttribute name =>
      simp only [visitNode, List.mem_append] at hv
      rcases hv with (h1 | h2) | h3
      · simp at h1
      · by_cases hn : name = "dangerouslySetInnerHTML"
        · rw [if_pos hn, List.mem_singleton] at h2
          exact Or.inr ⟨line0, h2⟩
        · rw [if_neg hn] at h2
          simp at h2
      · exact visitForest_shape path children v h3
    | otherNode =>
      simp only [visitNode, List.mem_append] at hv
      rcases hv with (h1 | h2) | h3
      · simp at h1
      · simp at h2
      · exact visitForest_shape path children v h3

theorem visitForest_shape (path : String) :
    ∀ (ts : List TsNode) (v : Vulnerability), v ∈ visitForest path ts →
      (∃ n, v = mkEvalFinding path n) ∨ ∃ n, v = mkDangerFinding path n
  | [], v => by intro hv; simp [visitForest] at hv
  | c :: cs, v => by
    intro hv
    simp only [visitForest, List.mem_append] at hv
    rcases hv with h | h
    · exact visitNode_shape path c v h
    · exact visitForest_shape path cs v h

end

mutual

theorem countP_eval_visitNode (path : String) :
    ∀ (t : TsNode),
      (visitNode path t).countP (fun v => decide (v.id = "eval-usage")) = countEvalNode t
  | .mk k line0 children => by
    cases k with
    | callWithIdentCallee name =>
      by_cases hn : name = "eval" <;>
        simp [visitNode, countEvalNode, List.countP_append, hn, mkEvalFinding,
          countP_eval_visitForest path children, Nat.add_comm]
    | callOther =>
      simp [visitNode, countEvalNode, List.countP_append,
        countP_eval_visitForest path children]
    | jsxAttribute name =>
      by_cases hn : name = "dangerouslySetInnerHTML" <;>
        simp [visitNode, countEvalNode, List.countP_append, hn, mkDangerFinding,
          countP_eval_visitForest path children]
    | otherNode =>
      simp [visitNode, countEvalNode, List.countP_append,
        countP_eval_visitForest path children]

theorem countP_eval_visitForest (path : String) :
    ∀ (ts : List TsNode),
      (visitForest path ts).countP (fun v => decide (v.id = "eval-usage")) =
        countEvalForest ts
  | [] => by simp [visitForest, countEvalForest]
  | c :: cs => by
    simp only [visitForest, countEvalForest, List.countP_append]
    rw [countP_eval_visitNode path c, countP_eval_visitForest path cs]

end

theorem mem_securityAstFindings (R : JsRuntime) (f : WorkspaceFile) (v : Vulnerability)
    (hv : v ∈ securityAstFindings R f) :
    v.file = f.fsPath ∧ (v.id = "eval-usage" ∨ v.id = "dangerously-set-inner-html") := by
  unfold securityAstFindings at hv
  split at hv
  · cases hparse : R.tsParse f.content with
    | none => rw [hparse] at hv; simp at hv
    | some ast =>
      rw [hparse] at hv
      rcases visitNode_shape f.fsPath ast v hv with ⟨n, rfl⟩ | ⟨n, rfl⟩
      · simp [mkEvalFinding]
      · simp [mkDangerFinding]
  · simp at hv

theorem mem_securitySecretFindings (R : JsRuntime) (f : WorkspaceFile) (v : Vulnerability)
    (hv : v ∈ securitySecretFindings R f) :
    v.file = f.fsPath ∧ v.id = "env-isolation" := by
  unfold securitySecretFindings at hv
  rw [List.mem_map] at hv
  obtain ⟨m, -, rfl⟩ := hv
  exact ⟨rfl, rfl⟩

theorem mem_securityDebugFindings (R : JsRuntime) (f : WorkspaceFile) (v : Vulnerability)
    (hv : v ∈ securityDebugFindings R f) :
    v.file = f.fsPath ∧ v.id = "debug-exposure" := by
  unfold securityDebugFindings at hv
  rw [List.mem_map] at hv
  obtain ⟨m, -, rfl⟩ := hv
  exact ⟨rfl, rfl⟩

theorem mem_securityForFile (R : JsRuntime) (f : WorkspaceFile) (v : Vulnerability)
    (hv : v ∈ securityForFile R f) : v.file = f.fsPath := by
  unfold securityForFile at hv
  rw [List.mem_append, List.mem_append] at hv
  rcases hv with (h | h) | h
  · exact (mem_securityAstFindings R f v h).1
  · exact (mem_securitySecretFindings R f v h).1
  · exact (mem_securityDebugFindings R f v h).1

theorem mem_dependencyForFile (R : JsRuntime) (f : WorkspaceFile) (v : Vulnerability)
    (hv : v ∈ dependencyForFile R f) :
    v.file = f.fsPath ∧ (v.id = "blacklisted-dependency" ∨ v.id = "malformed-package-json") := by
  unfold dependencyForFile at hv
  split at hv
  · cases hparse : R.jsonDeps f.content with
    | none =>
      rw [hparse, List.mem_singleton] at hv
      subst hv
      simp [mkMalformedManifestFinding]
    | some deps =>
      rw [hparse, List.mem_map] at hv
      obtain ⟨dep, -, rfl⟩ := hv
      exact ⟨rfl, Or.inl rfl⟩
  · simp at hv

theorem mem_complianceForFile (R : JsRuntime) (f : WorkspaceFile) (v : Vulnerability)
    (hv : v ∈ complianceForFile R f) :
    v.file = f.fsPath ∧ (v.id = "pii-leakage" ∨ v.id = "observability-failure") := by
  unfold complianceForFile at hv
  split at hv
  · rw [List.mem_append] at hv
    rcases hv with h | h <;> rw [List.mem_map] at h <;> obtain ⟨m, -, rfl⟩ := h
    · exact ⟨rfl, Or.inl rfl⟩
    · exact ⟨rfl, Or.inr rfl⟩
  · simp at hv

theorem mem_aiRiskForFile (R : JsRuntime) (f : WorkspaceFile) (v : Vulnerability)
    (hv : v ∈ aiRiskForFile R f) :
    v.file = f.fsPath ∧ v.id = "ai-prompt-injection" := by
  unfold aiRiskForFile at hv
  split at hv
  · rw [List.mem_map] at hv
    obtain ⟨m, -, rfl⟩ := hv
    exact ⟨rfl, rfl⟩
  · simp at hv

theorem mem_architectureForFile (R : JsRuntime) (f : WorkspaceFile) (v : Vulnerability)
    (hv : v ∈ architectureForFile R f) :
    v.file = f.fsPath ∧
      (v.id = "architecture-fragility" ∨ v.id = "architecture-fragility-db") := by
  unfold architectureForFile at hv
  rw [List.mem_append] at hv
  rcases hv with h | h
  · split at h
    · rw [List.mem_singleton] at h
      subst h
      exact ⟨rfl, Or.inl rfl⟩
    · simp at h
  · split at h
    · rw [List.mem_map] at h
      obtain ⟨m, -, rfl⟩ := h
      exact ⟨rfl, Or.inr rfl⟩
    · simp at h

theorem flatMap_filter_path (per : WorkspaceFile → List Vulnerability)
    (hfile : ∀ g v, v ∈ per g → v.file = g.fsPath) :
    ∀ (files : List WorkspaceFile) (f : WorkspaceFile), f ∈ files →
      files.countP (fun g => decide (g.fsPath = f.fsPath)) = 1 →
      (files.flatMap per).filter (fun v => decide (v.file = f.fsPath)) = per f := by
  intro files
  induction files with
  | nil => intro f hmem; simp at hmem
  | cons g t ih =>
    intro f hmem huniq
    rw [List.flatMap_cons, List.filter_append]
    rw [List.countP_cons] at huniq
    by_cases hg : g.fsPath = f.fsPath
    · rw [if_pos (by simp [hg])] at huniq
      have ht0 : t.countP (fun x => decide (x.fsPath = f.fsPath)) = 0 := by omega
      have hnot : ∀ x ∈ t, x.fsPath ≠ f.fsPath := by
        intro x hx
        have := List.countP_eq_zero.mp ht0 x hx
        simpa using this
      have hgf : g = f := by
        refine members_eq_of_countP_eq_one (fun x => decide (x.fsPath = f.fsPath))
          (g :: t) (by rw [List.countP_cons, if_pos (by simp [hg])]; omega)
          g (by simp) (by simp [hg]) f hmem (by simp)
      have h1 : (per g).filter (fun v => decide (v.file = f.fsPath)) = per g := by
        rw [List.filter_eq_self]
        intro v hv
        simp [hfile g v hv, hg]
      have h2 : (t.flatMap per).filter (fun v => decide (v.file = f.fsPath)) = [] := by
        rw [List.filter_eq_nil_iff]
        intro v hv
        obtain ⟨x, hx, hvx⟩ := List.mem_flatMap.mp hv
        simp [hfile x v hvx, hnot x hx]
      rw [h1, h2, List.append_nil, hgf]
    · rw [if_neg (by simp [hg])] at huniq
      have hft : f ∈ t := by
        rcases List.mem_cons.mp hmem with rfl | h
        · exact absurd rfl hg
        · exact h
      have h1 : (per g).filter (fun v => decide (v.file = f.fsPath)) = [] := by
        rw [List.filter_eq_nil_iff]
        intro v hv
        simp [hfile g v hv, hg]
      rw [h1, List.nil_append]
      exact ih f hft (by omega)

theorem counts_partition (vs : List Vulnerability) :
    errorCountOf vs + warningCountOf vs + infoCountOf vs = vs.length := by
  unfold errorCountOf warningCountOf infoCountOf
  simp only [Bool.decide_and, decide_not]
  induction vs with
  | nil => simp
  | cons v t ih =>
    rw [List.countP_cons, List.countP_cons, List.countP_cons, List.length_cons]
    by_cases hE : v.severity = "ERROR" <;> by_cases hW : v.severity = "WARNING"
    · exact absurd (hE.symm.trans hW) (by decide)
    · simp only [hE, hW]
      simp
      omega
    · simp only [hE, hW]
      simp
      omega
    · simp only [hE, hW]
      simp
      omega

theorem runScoringAgent_finalScore (now : String) (vs : List Vulnerability) :
    (runScoringAgent now vs).scoreDetails.finalScore =
      max 0 (100 - 25 * (errorCountOf vs : Int) - 10 * (warningCountOf vs : Int) -
        2 * (infoCountOf vs : Int)) := rfl

theorem runScoringAgent_decision (now : String) (vs : List Vulnerability) :
    (runScoringAgent now vs).scoreDetails.decision =
      if errorCountOf vs > 0 ∨ (runScoringAgent now vs).scoreDetails.finalScore < 50
      then "NO-GO" else "GO" := rfl

/-- C1: for every list of findings, `runScoringAgent` returns
`finalScore = clamp(100 - 25*errorCount - 10*warningCount - 2*infoCount, 0, 100)`
(the function is total by construction); the empty finding list yields score
100, and `errorCount = 2, warningCount = 1, infoCount = 3` yields score 34. -/
theorem claim_C1_scoring_formula (now : String) (vs : List Vulnerability) :
    (runScoringAgent now vs).scoreDetails.finalScore =
      min 100 (max 0 (100 - 25 * (errorCountOf vs : Int) -
        10 * (warningCountOf vs : Int) - 2 * (infoCountOf vs : Int))) ∧
    (runScoringAgent now []).scoreDetails.finalScore = 100 ∧
    (errorCountOf vs = 2 → warningCountOf vs = 1 → infoCountOf vs = 3 →
      (runScoringAgent now vs).scoreDetails.finalScore = 34) := by
  refine ⟨?_, ?_, ?_⟩
  · rw [runScoringAgent_finalScore]
    omega
  · rw [runScoringAgent_finalScore]
    simp [errorCountOf, warningCountOf, infoCountOf]
  · intro h1 h2 h3
    rw [runScoringAgent_finalScore, h1, h2, h3]
    omega

/-- C1 witness: a concrete list with 2 ERROR, 1 WARNING and 3 INFO findings. -/
def demoVuln (sev : String) (n : Nat) : Vulnerability :=
  { id := "demo", title := "", severity := sev, file := "", line := n,
    description := "", recommendation := "", agentSource := "" }

def demoList213 : List Vulnerability :=
  [demoVuln "ERROR" 1, demoVuln "ERROR" 2, demoVuln "WARNING" 3,
    demoVuln "INFO" 4, demoVuln "INFO" 5, demoVuln "INFO" 6]

theorem claim_C1_scoring_formula_witness :
    errorCountOf demoList213 = 2 ∧ warningCountOf demoList213 = 1 ∧
      infoCountOf demoList213 = 3 ∧
      (runScoringAgent "t" demoList213).scoreDetails.finalScore = 34 :=
  ⟨by decide, by decide, by decide,
    (claim_C1_scoring_formula "t" demoList213).2.2 (by decide) (by decide) (by decide)⟩

/-- C2: the decision is NO-GO iff `errorCount > 0` or the (clamped) score is
below 50; one ERROR finding alone gives score 75 but NO-GO; six WARNING
findings alone give score 40 and NO-GO purely from the score floor. -/
theorem claim_C2_decision_rule (now : String) (vs : List Vulnerability) :
    ((runScoringAgent now vs).scoreDetails.decision = "NO-GO" ↔
      errorCountOf vs > 0 ∨ (runScoringAgent now vs).scoreDetails.finalScore < 50) ∧
    (errorCountOf vs = 1 → warningCountOf vs = 0 → infoCountOf vs = 0 →
      (runScoringAgent now vs).scoreDetails.finalScore = 75 ∧
      (runScoringAgent now vs).scoreDetails.decision = "NO-GO") ∧
    (errorCountOf vs = 0 → warningCountOf vs = 6 → infoCountOf vs = 0 →
      (runScoringAgent now vs).scoreDetails.finalScore = 40 ∧
      (runScoringAgent now vs).scoreDetails.decision = "NO-GO") := by
  have hiff : (runScoringAgent now vs).scoreDetails.decision = "NO-GO" ↔
      errorCountOf vs > 0 ∨ (runScoringAgent now vs).scoreDetails.finalScore < 50 := by
    rw [runScoringAgent_decision]
    by_cases h : errorCountOf vs > 0 ∨ (runScoringAgent now vs).scoreDetails.finalScore < 50
    · rw [if_pos h]
      exact iff_of_true rfl h
    · rw [if_neg h]
      exact iff_of_false (by decide) h
  refine ⟨hiff, ?_, ?_⟩
  · intro h1 h2 h3
    have hs : (runScoringAgent now vs).scoreDetails.finalScore = 75 := by
      rw [runScoringAgent_finalScore, h1, h2, h3]
      omega
    exact ⟨hs, hiff.mpr (Or.inl (by omega))⟩
  · intro h1 h2 h3
    have hs : (runScoringAgent now vs).scoreDetails.finalScore = 40 := by
      rw [runScoringAgent_finalScore, h1, h2, h3]
      omega
    exact ⟨hs, hiff.mpr (Or.inr (by rw [hs]; norm_num))⟩

def demoList600 : List Vulnerability :=
  [demoVuln "WARNING" 1, demoVuln "WARNING" 2, demoVuln "WARNING" 3,
    demoVuln "WARNING" 4, demoVuln "WARNING" 5, demoVuln "WARNING" 6]

theorem claim_C2_decision_rule_witness :
    ((runScoringAgent "t" demoList600).scoreDetails.finalScore = 40 ∧
      (runScoringAgent "t" demoList600).scoreDetails.decision = "NO-GO") ∧
    ((runScoringAgent "t" [demoVuln "ERROR" 1]).scoreDetails.finalScore = 75 ∧
      (runScoringAgent "t" [demoVuln "ERROR" 1]).scoreDetails.decision = "NO-GO") :=
  ⟨(claim_C2_decision_rule "t" demoList600).2.2 (by decide) (by decide) (by decide),
    (claim_C2_decision_rule "t" [demoVuln "ERROR" 1]).2.1 (by decide) (by decide) (by decide)⟩

/-- C7: appending any single finding never raises the score, and never flips
the decision from NO-GO to GO. -/
theorem claim_C7_score_monotonicity (now : String) (vs : List Vulnerability)
    (f : Vulnerability) :
    (runScoringAgent now (vs ++ [f])).scoreDetails.finalScore ≤
      (runScoringAgent now vs).scoreDetails.finalScore ∧
    ((runScoringAgent now vs).scoreDetails.decision = "NO-GO" →
      (runScoringAgent now (vs ++ [f])).scoreDetails.decision = "NO-GO") := by
  have hE : errorCountOf vs ≤ errorCountOf (vs ++ [f]) := by
    unfold errorCountOf
    rw [List.countP_append]
    omega
  have hW : warningCountOf vs ≤ warningCountOf (vs ++ [f]) := by
    unfold warningCountOf
    rw [List.countP_append]
    omega
  have hI : infoCountOf vs ≤ infoCountOf (vs ++ [f]) := by
    unfold infoCountOf
    rw [List.countP_append]
    omega
  have hscore : (runScoringAgent now (vs ++ [f])).scoreDetails.finalScore ≤
      (runScoringAgent now vs).scoreDetails.finalScore := by
    rw [runScoringAgent_finalScore, runScoringAgent_finalScore]
    omega
  refine ⟨hscore, ?_⟩
  intro hngo
  rw [runScoringAgent_decision] at hngo
  by_cases hc : errorCountOf vs > 0 ∨ (runScoringAgent now vs).scoreDetails.finalScore < 50
  · rw [runScoringAgent_decision, if_pos ?_]
    rcases hc with h | h
    · exact Or.inl (by omega)
    · exact Or.inr (by omega)
  · rw [if_neg hc] at hngo
    exact absurd hngo (by decide)

theorem claim_C7_score_monotonicity_witness :
    (runScoringAgent "t" demoList213).scoreDetails.decision = "NO-GO" ∧
    (runScoringAgent "t" (demoList213 ++ [demoVuln "INFO" 7])).scoreDetails.decision
      = "NO-GO" :=
  ⟨by decide,
    (claim_C7_score_monotonicity "t" demoList213 (demoVuln "INFO" 7)).2 (by decide)⟩

/-- C10: in every report of `runScoringAgent`, `totalVulnerabilities` is the
length of the `vulnerabilities` array and equals
`errorCount + warningCount + infoCount`; `infoCount` counts exactly the
findings whose severity is neither `"ERROR"` nor `"WARNING"`, so the three
per-severity counts partition the finding list. -/
theorem claim_C10_counts_partition (now : String) (vs : List Vulnerability) :
    (runScoringAgent now vs).scoreDetails.totalVulnerabilities =
      (runScoringAgent now vs).vulnerabilities.length ∧
    (runScoringAgent now vs).scoreDetails.totalVulnerabilities =
      (runScoringAgent now vs).scoreDetails.errorCount +
        (runScoringAgent now vs).scoreDetails.warningCount +
        (runScoringAgent now vs).scoreDetails.infoCount ∧
    (runScoringAgent now vs).scoreDetails.infoCount =
      vs.countP (fun v => decide (¬v.severity = "ERROR" ∧ ¬v.severity = "WARNING")) := by
  refine ⟨rfl, ?_, rfl⟩
  show vs.length = errorCountOf vs + warningCountOf vs + infoCountOf vs
  exact (counts_partition vs).symm

theorem runAudit_vulnerabilities (R : JsRuntime) (files : List WorkspaceFile) :
    (runAudit R files).vulnerabilities = dedupByKey (allFindings R files) := rfl

/-- C3: for every input file list, the findings of the report of `runAudit`
hold at most one finding per `(ruleId, filePath, lineNumber)` key; every kept
finding is the first occurrence of its key in the fixed concatenation order
security, dependency, compliance, aiRisk, architecture (`allFindings`); and
every key occurring in the concatenation is kept exactly once, so two rules
emitting the same key collapse to exactly one finding. -/
theorem claim_C3_dedup_unique (R : JsRuntime) (files : List WorkspaceFile) :
    (∀ k : String × String × Nat,
      ((runAudit R files).vulnerabilities.countP fun v => decide (keyOf v = k)) ≤ 1) ∧
    (∀ v ∈ (runAudit R files).vulnerabilities,
      (allFindings R files).find? (fun t => decide (keyOf t = keyOf v)) = some v) ∧
    (∀ k : String × String × Nat,
      (allFindings R files).any (fun v => decide (keyOf v = k)) = true →
      ((runAudit R files).vulnerabilities.countP fun v => decide (keyOf v = k)) = 1) := by
  refine ⟨?_, ?_, ?_⟩
  · intro k
    rw [runAudit_vulnerabilities, dedupByKey_countKey]
    split <;> omega
  · intro v hv
    rw [runAudit_vulnerabilities] at hv
    exact dedupByKey_mem_find? _ v hv
  · intro k hany
    rw [runAudit_vulnerabilities, dedupByKey_countKey, if_pos hany]

/-- A fully inert runtime: no regex match, parse failures everywhere. -/
def emptyRuntime : JsRuntime :=
  { secretExec := fun _ => [], debugExec := fun _ => [], piiExec := fun _ => [],
    logExec := fun _ => [], promptExec := fun _ => [], dbExec := fun _ => [],
    tsParse := fun _ => none, jsonDeps := fun _ => none, nowISO := "t" }

def filePkg : WorkspaceFile := { fsPath := "package.json", content := [] }

theorem claim_C3_dedup_unique_witness :
    (allFindings emptyRuntime [filePkg]).any
      (fun v => decide (keyOf v = ("malformed-package-json", "package.json", 1))) = true ∧
    ((runAudit emptyRuntime [filePkg]).vulnerabilities.countP
      fun v => decide (keyOf v = ("malformed-package-json", "package.json", 1))) = 1 :=
  ⟨by decide,
    (claim_C3_dedup_unique emptyRuntime [filePkg]).2.2
      ("malformed-package-json", "package.json", 1) (by decide)⟩

/-- C5: a structural parse failure leaves the security agent total (no
exception escapes: the agent is a Lean function on every input), yields zero
structural findings for the file, makes the file's detection fall back to
exactly the two textual passes, and the scan over the other files is not
aborted (`runSecurityAgent` stays the per-file concatenation). -/
theorem claim_C5_parse_failure_fallback (R : JsRuntime) (files : List WorkspaceFile)
    (f : WorkspaceFile) (hparse : R.tsParse f.content = none) :
    runSecurityAgent R files = files.flatMap (securityForFile R) ∧
    securityAstFindings R f = [] ∧
    securityForFile R f = securitySecretFindings R f ++ securityDebugFindings R f ∧
    ∀ v ∈ securityForFile R f,
      ¬v.id = "eval-usage" ∧ ¬v.id = "dangerously-set-inner-html" := by
  have hast : securityAstFindings R f = [] := by
    unfold securityAstFindings
    split
    · rw [hparse]
    · rfl
  refine ⟨rfl, hast, ?_, ?_⟩
  · unfold securityForFile
    rw [hast, List.nil_append]
  · intro v hv
    unfold securityForFile at hv
    rw [hast, List.nil_append, List.mem_append] at hv
    rcases hv with h | h
    · have hid := (mem_securitySecretFindings R f v h).2
      simp [hid]
    · have hid := (mem_securityDebugFindings R f v h).2
      simp [hid]

def fileTs : WorkspaceFile := { fsPath := "a.ts", content := [] }

theorem claim_C5_parse_failure_fallback_witness :
    securityAstFindings emptyRuntime fileTs = [] ∧
    securityForFile emptyRuntime fileTs =
      securitySecretFindings emptyRuntime fileTs ++
        securityDebugFindings emptyRuntime fileTs :=
  ⟨(claim_C5_parse_failure_fallback emptyRuntime [fileTs] fileTs rfl).2.1,
    (claim_C5_parse_failure_fallback emptyRuntime [fileTs] fileTs rfl).2.2.1⟩

/-- C6: a `package.json` whose content cannot be parsed and processed makes
the dependency agent (total by construction) emit exactly one finding for
that file: the dedicated `malformed-package-json` INFO finding at line 1. -/
theorem claim_C6_malformed_manifest (R : JsRuntime) (files : List WorkspaceFile)
    (f : WorkspaceFile) (hmem : f ∈ files)
    (huniq : files.countP (fun g => decide (g.fsPath = f.fsPath)) = 1)
    (hpj : endsWithLit "package.json" f.fsPath = true)
    (hparse : R.jsonDeps f.content = none) :
    (runDependencyAgent R files).filter (fun v => decide (v.file = f.fsPath)) =
      [mkMalformedManifestFinding f.fsPath] ∧
    (mkMalformedManifestFinding f.fsPath).id = "malformed-package-json" ∧
    (mkMalformedManifestFinding f.fsPath).severity = "INFO" ∧
    (mkMalformedManifestFinding f.fsPath).line = 1 := by
  refine ⟨?_, rfl, rfl, rfl⟩
  have h1 : (runDependencyAgent R files).filter (fun v => decide (v.file = f.fsPath)) =
      dependencyForFile R f :=
    flatMap_filter_path (dependencyForFile R)
      (fun g v hv => (mem_dependencyForFile R g v hv).1) files f hmem huniq
  rw [h1]
  unfold dependencyForFile
  rw [if_pos hpj, hparse]

theorem claim_C6_malformed_manifest_witness :
    (runDependencyAgent emptyRuntime [filePkg]).filter
        (fun v => decide (v.file = filePkg.fsPath)) =
      [mkMalformedManifestFinding filePkg.fsPath] :=
  (claim_C6_malformed_manifest emptyRuntime [filePkg] filePkg (by decide) (by decide)
    (by decide) rfl).1

/-- C8: an offset that is the first character of line `n` (for any `n` from 1
to the number of lines of the file) is converted by the agents'
offset-to-line computation to exactly `n`. -/
theorem claim_C8_offset_to_line (content : List Char) (n : Nat)
    (h1 : 1 ≤ n) (h2 : n ≤ (splitNl content).length) :
    numLinesUpTo content (lineStartOffset content n) = n := by
  have h2' : n ≤ content.count '\n' + 1 := by
    rw [length_splitNl] at h2
    exact h2
  unfold numLinesUpTo
  rw [length_splitNl, count_take_lineStartOffset content n h1 h2']
  omega

def demoContent : List Char := ['a', 'b', '\n', 'c']

theorem claim_C8_offset_to_line_witness :
    numLinesUpTo demoContent (lineStartOffset demoContent 1) = 1 ∧
    numLinesUpTo demoContent (lineStartOffset demoContent 2) = 2 :=
  ⟨claim_C8_offset_to_line demoContent 1 (by decide) (by decide),
    claim_C8_offset_to_line demoContent 2 (by decide) (by decide)⟩

/-- C9 (documenting the divergence): the conversion the agents run for every
single match is `substring(0, idx).split('\n').length`, i.e. a full traversal
of the `idx`-character prefix recounting its newlines each time; no newline
index is precomputed or binary-searched anywhere in the pipeline. -/
theorem claim_C9_conversion_rescans_prefix (content : List Char) (idx : Nat) :
    numLinesUpTo content idx = (content.take idx).count '\n' + 1 := by
  unfold numLinesUpTo
  rw [length_splitNl]

theorem countP_eval_dependencyForFile (R : JsRuntime) (f : WorkspaceFile) :
    (dependencyForFile R f).countP (fun v => decide (v.id = "eval-usage")) = 0 := by
  refine List.countP_eq_zero.mpr fun v hv => ?_
  rcases (mem_dependencyForFile R f v hv).2 with h | h <;> simp [h]

theorem countP_eval_complianceForFile (R : JsRuntime) (f : WorkspaceFile) :
    (complianceForFile R f).countP (fun v => decide (v.id = "eval-usage")) = 0 := by
  refine List.countP_eq_zero.mpr fun v hv => ?_
  rcases (mem_complianceForFile R f v hv).2 with h | h <;> simp [h]

theorem countP_eval_aiRiskForFile (R : JsRuntime) (f : WorkspaceFile) :
    (aiRiskForFile R f).countP (fun v => decide (v.id = "eval-usage")) = 0 := by
  refine List.countP_eq_zero.mpr fun v hv => ?_
  have h := (mem_aiRiskForFile R f v hv).2
  simp [h]

theorem countP_eval_architectureForFile (R : JsRuntime) (f : WorkspaceFile) :
    (architectureForFile R f).countP (fun v => decide (v.id = "eval-usage")) = 0 := by
  refine List.countP_eq_zero.mpr fun v hv => ?_
  rcases (mem_architectureForFile R f v hv).2 with h | h <;> simp [h]

theorem countP_eval_securityForFile (R : JsRuntime) (f : WorkspaceFile) (ast : TsNode)
    (hext : hasAnyExtCI [".ts", ".js", ".jsx", ".tsx"] f.fsPath = true)
    (hparse : R.tsParse f.content = some ast) :
    (securityForFile R f).countP (fun v => decide (v.id = "eval-usage")) =
      countEvalNode ast := by
  unfold securityForFile
  rw [List.countP_append, List.countP_append]
  have hsec : (securitySecretFindings R f).countP
      (fun v => decide (v.id = "eval-usage")) = 0 := by
    refine List.countP_eq_zero.mpr fun v hv => ?_
    have h := (mem_securitySecretFindings R f v hv).2
    simp [h]
  have hdbg : (securityDebugFindings R f).countP
      (fun v => decide (v.id = "eval-usage")) = 0 := by
    refine List.countP_eq_zero.mpr fun v hv => ?_
    have h := (mem_securityDebugFindings R f v hv).2
    simp [h]
  have hast : (securityAstFindings R f).countP
      (fun v => decide (v.id = "eval-usage")) = countEvalNode ast := by
    unfold securityAstFindings
    rw [if_pos hext, hparse]
    exact countP_eval_visitNode f.fsPath ast
  rw [hsec, hdbg, hast]
  omega

/-- C4: a source file whose path matches the code extensions, whose content
parses, and whose AST carries exactly one call expression with callee
identifier `eval`, contributes exactly one `eval-usage` finding for that
path to the audit report: the structural result is the only source of that
rule id (the textual passes of the security agent emit other rule ids, every
other agent emits other rule ids) and the dedup keeps it. -/
theorem claim_C4_single_eval_finding (R : JsRuntime) (files : List WorkspaceFile)
    (f : WorkspaceFile) (ast : TsNode)
    (hmem : f ∈ files)
    (huniq : files.countP (fun g => decide (g.fsPath = f.fsPath)) = 1)
    (hext : hasAnyExtCI [".ts", ".js", ".jsx", ".tsx"] f.fsPath = true)
    (hparse : R.tsParse f.content = some ast)
    (hone : countEvalNode ast = 1) :
    ((runAudit R files).vulnerabilities.countP
      fun v => decide (v.id = "eval-usage" ∧ v.file = f.fsPath)) = 1 := by
  have hall : ((allFindings R files).countP
      fun v => decide (v.id = "eval-usage" ∧ v.file = f.fsPath)) = 1 := by
    have hsplit : ((allFindings R files).countP
        fun v => decide (v.id = "eval-usage" ∧ v.file = f.fsPath)) =
        (((allFindings R files).filter fun v => decide (v.file = f.fsPath)).countP
          fun v => decide (v.id = "eval-usage")) := by
      rw [List.countP_filter]
      simp only [Bool.decide_and]
    rw [hsplit]
    have hfilter : ((allFindings R files).filter fun v => decide (v.file = f.fsPath)) =
        securityForFile R f ++ dependencyForFile R f ++ complianceForFile R f ++
          aiRiskForFile R f ++ architectureForFile R f := by
      unfold allFindings runSecurityAgent runDependencyAgent runComplianceAgent
        runAiRiskAgent runArchitectureAgent
      rw [List.filter_append, List.filter_append, List.filter_append,
        List.filter_append]
      rw [flatMap_filter_path (securityForFile R)
          (fun g v hv => mem_securityForFile R g v hv) files f hmem huniq,
        flatMap_filter_path (dependencyForFile R)
          (fun g v hv => (mem_dependencyForFile R g v hv).1) files f hmem huniq,
        flatMap_filter_path (complianceForFile R)
          (fun g v hv => (mem_complianceForFile R g v hv).1) files f hmem huniq,
        flatMap_filter_path (aiRiskForFile R)
          (fun g v hv => (mem_aiRiskForFile R g v hv).1) files f hmem huniq,
        flatMap_filter_path (architectureForFile R)
          (fun g v hv => (mem_architectureForFile R g v hv).1) files f hmem huniq]
    rw [hfilter]
    rw [List.countP_append, List.countP_append, List.countP_append,
      List.countP_append]
    rw [countP_eval_securityForFile R f ast hext hparse, hone,
      countP_eval_dependencyForFile R f, countP_eval_complianceForFile R f,
      countP_eval_aiRiskForFile R f, countP_eval_architectureForFile R f]
  rw [runAudit_vulnerabilities]
  refine dedupByKey_countP_of_keyDet (allFindings R files) _ ?_ hall
  intro a b hk
  rw [keyOf_eq_iff] at hk
  obtain ⟨hid, hfile, -⟩ := hk
  simp [hid, hfile]

/-- C4 witness runtime: the parser returns a one-node AST holding a single
`eval()` call. -/
def demoEvalAst : TsNode := .mk (.callWithIdentCallee "eval") 0 []

def evalRuntime : JsRuntime :=
  { emptyRuntime with tsParse := fun _ => some demoEvalAst }

theorem claim_C4_single_eval_finding_witness :
    hasAnyExtCI [".ts", ".js", ".jsx", ".tsx"] fileTs.fsPath = true ∧
    ((runAudit evalRuntime [fileTs]).vulnerabilities.countP
      fun v => decide (v.id = "eval-usage" ∧ v.file = fileTs.fsPath)) = 1 :=
  ⟨by decide,
    claim_C4_single_eval_finding evalRuntime [fileTs] fileTs demoEvalAst (by decide)
      (by decide) (by decide) rfl rfl⟩
